import Mathlib

/-!
Verification of the fetch-normalize-aggregate pipeline of
`finance-visualize` (src/main.py), shallowly embedded in Lean 4.

All floating-point numerics are modelled by rationals (`ℚ`); `None`/`NaN`
cells are modelled by `Option ℚ` (rationals have no NaN, and the source
treats a stored NaN market cap exactly like a missing one).  Python
exceptions are modelled by `Except String`.
-/

namespace FinanceVisualize

/--
One raw provider row, as it stands after `pd.DataFrame(raw)`, the
lower-casing and the renaming of provider columns (main.py lines 30-52),
with the cell coercions already applied:

* the outer `Option` on a field says whether this row carried the key at
  all (a pandas column exists when at least one row has the key; a row
  missing the key of an existing column holds NaN there);
* `date` holds the result of `pd.to_datetime(..., errors="coerce")`,
  abstracted to a day number, `none` when unparseable;
* the price/volume fields hold the result of
  `pd.to_numeric(..., errors="coerce")`, `none` when unparseable.

`opn` models the `open` column (`open` is a Lean keyword); `volume`
models the first column matched by the volume alias set
`("kl", "volume", "vol", "khoiluong", "khoi_luong")`.
-/
structure RawRow where
  date : Option (Option Nat)
  opn : Option (Option ℚ)
  high : Option (Option ℚ)
  low : Option (Option ℚ)
  close : Option (Option ℚ)
  volume : Option (Option ℚ)
deriving Repr, DecidableEq

/-- One row of the normalized frame; cells are nullable. -/
structure Bar where
  date : Option Nat
  opn : Option ℚ
  high : Option ℚ
  low : Option ℚ
  close : Option ℚ
  volume : Option ℚ
deriving Repr, DecidableEq

/-- The frame `normalize_df` returns: its rows plus which of the two
columns inspected downstream exist (`"close" in df.columns`,
`"volume" in df.columns`). -/
structure NormFrame where
  rows : List Bar
  hasClose : Bool
  hasVolume : Bool
deriving Repr, DecidableEq

/-- Sort key used by `df.sort_values("date")`; every row reaching the
sort has a non-null date (the `dropna(subset=["date"])` ran first), so
the `getD` default is never consulted. -/
def dateKey (b : Bar) : Nat := b.date.getD 0

/-- The ascending-date order used by the sort. -/
def dateLE (a b : Bar) : Prop := dateKey a ≤ dateKey b

instance : DecidableRel dateLE := fun a b => inferInstanceAs (Decidable (dateKey a ≤ dateKey b))

instance : IsTotal Bar dateLE := ⟨fun a b => Nat.le_total (dateKey a) (dateKey b)⟩

instance : IsTrans Bar dateLE := ⟨fun _ _ _ => Nat.le_trans⟩

/-- Ascending sort by date, modelling `df.sort_values("date")`. -/
def sortByDate (l : List Bar) : List Bar := List.insertionSort dateLE l

/-- Collapse the column-presence layer of a raw cell into the cell value
a pandas frame shows: key absent in this row but column existing means
NaN, i.e. `none`. -/
def cellOf {α : Type} (c : Option (Option α)) : Option α := c.getD none

/-- The per-row cell coercions of main.py lines 44-52. -/
def coerceRow (r : RawRow) : Bar :=
  ⟨cellOf r.date, cellOf r.opn, cellOf r.high, cellOf r.low,
   cellOf r.close, cellOf r.volume⟩

/-- The row filtering of main.py lines 54-56: drop rows with a null
date, then — only when the close column exists — drop rows with a null
close. -/
def keptRows (raw : List RawRow) : List Bar :=
  let rows1 := (raw.map coerceRow).filter (fun b => b.date.isSome)
  if raw.any (fun r => r.close.isSome) then rows1.filter (fun b => b.close.isSome)
  else rows1

/-- `normalize_df` (main.py lines 30-58).

Line 44 reads `df["date"]` before assigning it, so when no row carries a
date key — in particular on empty input, where the frame has no columns
at all — pandas raises `KeyError: 'date'`; we surface that as
`Except.error`.  Otherwise: coerce cells, drop rows with a null date,
drop rows with a null close when the close column exists, and sort
ascending by date.  No deduplication by date is performed.
-/
def normalize_df (raw : List RawRow) : Except String NormFrame :=
  if raw.any (fun r => r.date.isSome) then
    Except.ok ⟨sortByDate (keptRows raw),
               raw.any (fun r => r.close.isSome),
               raw.any (fun r => r.volume.isSome)⟩
  else
    Except.error "KeyError: date"

/-- `SymbolResult`: the fixed-shape record `process_symbol` returns. -/
structure SymbolResult where
  symbol : String
  price : Option ℚ
  change : Option ℚ
  change_pct : Option ℚ
  avg_volume : Option ℚ
  n_points : Nat
  error : Option String
deriving Repr, DecidableEq

/-- `float(df["close"].iloc[0])`: first close of the sorted frame.  The
`getD` default is unreachable under the guards of `process_symbol`
(non-empty frame whose close column exists). -/
def firstClose (nf : NormFrame) : ℚ := (nf.rows.head?.bind Bar.close).getD 0

/-- `float(df["close"].iloc[-1])`: last close of the sorted frame. -/
def lastClose (nf : NormFrame) : ℚ := (nf.rows.getLast?.bind Bar.close).getD 0

/-- `df["volume"].dropna()` on the normalized frame. -/
def volumes (nf : NormFrame) : List ℚ := nf.rows.filterMap Bar.volume

/-- `process_symbol` (main.py lines 115-132).  The argument `fetched`
is the outcome of `fetch_history`: `Except.error` models any exception
raised by the fetch (network error, bad status, malformed payload,
timeout); that error, as well as any error from `normalize_df`, is
caught and converted into an error record. -/
def process_symbol (symbol : String) (fetched : Except String (List RawRow)) : SymbolResult :=
  match fetched.bind normalize_df with
  | Except.error e => ⟨symbol, none, none, none, none, 0, some e⟩
  | Except.ok df =>
    if df.rows.isEmpty || !df.hasClose then
      ⟨symbol, none, none, none, none, 0, none⟩
    else
      let first := firstClose df
      let last := lastClose df
      let change := last - first
      let change_pct := if first ≠ 0 then some (change / first * 100) else none
      let avg_vol :=
        if df.hasVolume then
          let vol := volumes df
          if !vol.isEmpty then some (vol.sum / (vol.length : ℚ)) else none
        else none
      ⟨symbol, some last, some change, change_pct, avg_vol, df.rows.length, none⟩

/-- One value of the optional symbol to sector/name map produced by
`read_sector_file`: a dict always carrying both keys. -/
structure SectorInfo where
  sector : String
  name : String
deriving Repr, DecidableEq

/-- One entry of the flat visualization list (main.py lines 158-168). -/
structure FlatEntry where
  symbol : String
  name : String
  sector : String
  price : Option ℚ
  change : Option ℚ
  change_pct : Option ℚ
  market_cap_basic : Option ℚ
  volume : Option ℚ
  n_points : Nat
deriving Repr, DecidableEq

/-- Market-cap resolution for one surviving result (main.py lines
146-156).  The map value is used when the symbol is present with a
value that is neither `None` nor NaN (both collapse to `none` here).
The fallback multiplies `avg_volume` by `price`, but the source guards
it with Python truthiness — `if it.get("avg_volume") and it.get("price")`
— so a value of exactly `0` falls through to `none` just like a null. -/
def resolve_mc (mm : List (String × Option ℚ)) (it : SymbolResult) : Option ℚ :=
  match mm.lookup it.symbol with
  | some (some v) => some v
  | _ =>
    match it.avg_volume, it.price with
    | some av, some p => if av ≠ 0 ∧ p ≠ 0 then some (av * p) else none
    | _, _ => none

/-- Build one flat entry from a symbol result (main.py lines 137-169);
`none` when the result is skipped because its `change_pct` is null. -/
def toFlat (sm : List (String × SectorInfo)) (mm : List (String × Option ℚ))
    (it : SymbolResult) : Option FlatEntry :=
  if it.change_pct = none then none
  else
    let nameSector :=
      match sm.lookup it.symbol with
      | some info => (info.name, info.sector)
      | none => (it.symbol, "Unknown")
    some ⟨it.symbol, nameSector.1, nameSector.2, it.price, it.change, it.change_pct,
          resolve_mc mm it, it.avg_volume, it.n_points⟩

/-- The flat list: the `change_pct`-non-null filter plus entry
construction, in input order. -/
def buildFlat (sm : List (String × SectorInfo)) (mm : List (String × Option ℚ))
    (items : List SymbolResult) : List FlatEntry :=
  items.filterMap (toFlat sm mm)

/-- Accumulator value of the sector fold: the dict value
`{"name": sec, "sector_market_cap": ..., "items": [...]}`; the dict
itself is the ordered association list `List SectorAcc` (Python dicts
iterate in insertion order). -/
structure SectorAcc where
  name : String
  total : ℚ
  items : List FlatEntry
deriving Repr, DecidableEq

/-- `sec = e["sector"] or "Unknown"` (main.py line 173): Python
truthiness sends the empty string to `"Unknown"`. -/
def effSector (e : FlatEntry) : String := if e.sector = "" then "Unknown" else e.sector

/-- Add a market cap to a running total when it is non-null (line 176-177). -/
def mcAdd (t : ℚ) (e : FlatEntry) : ℚ :=
  match e.market_cap_basic with
  | some m => t + m
  | none => t

/-- Update the first accumulator entry whose key is `sec`: append the
flat entry to its items and fold its market cap into the total. -/
def addToFirst : List SectorAcc → String → FlatEntry → List SectorAcc
  | [], _, _ => []
  | a :: rest, sec, e =>
    if a.name = sec then ⟨a.name, mcAdd a.total e, a.items ++ [e]⟩ :: rest
    else a :: addToFirst rest sec e

/-- One step of the sector fold (main.py lines 172-177): `setdefault`
creates the bucket at the end of the dict when absent, then the entry is
appended and its non-null market cap added. -/
def addEntry (secs : List SectorAcc) (e : FlatEntry) : List SectorAcc :=
  let sec := effSector e
  if secs.any (fun a => a.name = sec) then addToFirst secs sec e
  else secs ++ [⟨sec, mcAdd 0 e, [e]⟩]

/-- The whole sector fold over the flat list. -/
def buildSectors (flat : List FlatEntry) : List SectorAcc :=
  flat.foldl addEntry []

/-- One element of the output `sectors` list (main.py lines 179-182). -/
structure SectorOut where
  name : String
  sector_market_cap : Option ℚ
  items : List FlatEntry
deriving Repr, DecidableEq

/-- `smc = total if total > 0 else None` applied to every bucket
(main.py lines 179-182). -/
def sectorsList (secs : List SectorAcc) : List SectorOut :=
  secs.map (fun a => ⟨a.name, if 0 < a.total then some a.total else none, a.items⟩)

/-- The `meta` block; the generation timestamp is an opaque input
(wall-clock time is outside the model). -/
structure MetaBlock where
  dataSource : String
  range_name : String
  generated_at : String
  notes : String
deriving Repr, DecidableEq

/-- The output document `tv_json` (main.py line 191). -/
structure TVDoc where
  meta : MetaBlock
  sectors : List SectorOut
  flat : List FlatEntry
deriving Repr, DecidableEq

/-- `build_tv_json_and_heatmap` (main.py lines 135-219), up to but not
including the plotly rendering: `Except.error` models the
`raise SystemExit("No valid items to plot (no data)")` taken when the
flat list is empty (a `pd.DataFrame` of an empty list is empty), which
fires before either output file is written; `Except.ok doc` models a
run that writes the chart and the JSON document `doc`. -/
def build_tv_json_and_heatmap (items : List SymbolResult)
    (sm : List (String × SectorInfo)) (mm : List (String × Option ℚ))
    (range_name generated_at : String) : Except String TVDoc :=
  let flat := buildFlat sm mm items
  let doc : TVDoc :=
    ⟨⟨"CAFEEF_HISTORY", range_name, generated_at,
      "Blocks are uniform size; color = % change"⟩,
     sectorsList (buildSectors flat), flat⟩
  if flat.isEmpty then Except.error "No valid items to plot (no data)"
  else Except.ok doc

/-! ## Concrete inputs used by counterexamples and witnesses -/

/-- Two raw rows sharing one date, both with non-null closes. -/
def rawDup : List RawRow :=
  [⟨some (some 5), none, none, none, some (some 10), none⟩,
   ⟨some (some 5), none, none, none, some (some 12), none⟩]

/-- One raw row carrying a date key but no close key at all. -/
def rawNoClose : List RawRow :=
  [⟨some (some 3), none, none, none, none, none⟩]

/-- A well-behaved two-day history, given newest-first as the provider
does: closes 10 then 12, volumes 300 then 100. -/
def rawW : List RawRow :=
  [⟨some (some 2), none, none, none, some (some 12), some (some 100)⟩,
   ⟨some (some 1), none, none, none, some (some 10), some (some 300)⟩]

/-- The normalized frame of `rawW`. -/
def nfW : NormFrame :=
  ⟨[⟨some 1, none, none, none, some 10, some 300⟩,
    ⟨some 2, none, none, none, some 12, some 100⟩], true, true⟩

/-! ## Lemmas about normalization -/

theorem perm_sortByDate (l : List Bar) : (sortByDate l).Perm l :=
  List.perm_insertionSort dateLE l

theorem sorted_sortByDate (l : List Bar) : List.Sorted dateLE (sortByDate l) :=
  List.sorted_insertionSort dateLE l

theorem keptRows_date {raw : List RawRow} {b : Bar} (hb : b ∈ keptRows raw) :
    b.date.isSome = true := by
  unfold keptRows at hb
  split at hb
  · exact (List.mem_filter.1 (List.mem_filter.1 hb).1).2
  · exact (List.mem_filter.1 hb).2

theorem keptRows_close {raw : List RawRow} {b : Bar}
    (hc : raw.any (fun r => r.close.isSome) = true) (hb : b ∈ keptRows raw) :
    b.close.isSome = true := by
  unfold keptRows at hb
  rw [if_pos hc] at hb
  exact (List.mem_filter.1 hb).2

theorem normalize_df_ok {raw : List RawRow} {nf : NormFrame}
    (h : normalize_df raw = Except.ok nf) :
    nf.rows = sortByDate (keptRows raw) ∧
    nf.hasClose = raw.any (fun r => r.close.isSome) ∧
    nf.hasVolume = raw.any (fun r => r.volume.isSome) := by
  unfold normalize_df at h
  split at h
  · cases h
    exact ⟨rfl, rfl, rfl⟩
  · cases h

/-! ## C7: shape of the series returned by normalize_df -/

/-- C7 counterexample.  The claim says the returned series is strictly
increasing in date (deduplicated by date) and contains no row with a
null close.  Both parts fail: on `rawDup` (two rows dated day 5) both
rows survive with the same date, and on `rawNoClose` (no close column
at all) the surviving row has a null close. -/
theorem normalize_df_canonical_cex :
    normalize_df rawDup =
      Except.ok ⟨[⟨some 5, none, none, none, some 10, none⟩,
                  ⟨some 5, none, none, none, some 12, none⟩], true, false⟩ ∧
    normalize_df rawNoClose =
      Except.ok ⟨[⟨some 3, none, none, none, none, none⟩], false, false⟩ :=
  ⟨rfl, rfl⟩

/-- C7 (amended): every row returned by `normalize_df` has a non-null
date; when the close column is present every row has a non-null close;
the rows are sorted by date in non-decreasing (not strictly increasing)
order; and the rows are exactly the date/close-filtered input rows up to
permutation — duplicate dates are all retained, never deduplicated. -/
theorem normalize_df_canonical (raw : List RawRow) (nf : NormFrame)
    (h : normalize_df raw = Except.ok nf) :
    (∀ b ∈ nf.rows, b.date.isSome = true) ∧
    (nf.hasClose = true → ∀ b ∈ nf.rows, b.close.isSome = true) ∧
    List.Sorted dateLE nf.rows ∧
    nf.rows.Perm (keptRows raw) := by
  obtain ⟨hr, hc, -⟩ := normalize_df_ok h
  rw [hr, hc]
  refine ⟨?_, ?_, sorted_sortByDate _, perm_sortByDate _⟩
  · intro b hb
    exact keptRows_date ((perm_sortByDate _).mem_iff.1 hb)
  · intro hcl b hb
    exact keptRows_close hcl ((perm_sortByDate _).mem_iff.1 hb)

/-- C7 witness: the amended theorem applied to the concrete input `rawW`. -/
theorem normalize_df_canonical_witness :
    (∀ b ∈ nfW.rows, b.date.isSome = true) ∧
    (nfW.hasClose = true → ∀ b ∈ nfW.rows, b.close.isSome = true) ∧
    List.Sorted dateLE nfW.rows ∧
    nfW.rows.Perm (keptRows rawW) :=
  normalize_df_canonical rawW nfW rfl

/-! ## C6: behaviour on empty raw input -/

/-- C6 counterexample.  The claim says `normalize_df` does not fail on
empty input and `process_symbol` consequently returns a no-error null
record; in fact pandas raises `KeyError` for the missing date column of
an empty frame, so `normalize_df` fails and `process_symbol` returns a
record whose `error` field is set. -/
theorem empty_input_cex :
    normalize_df ([] : List RawRow) = Except.error "KeyError: date" ∧
    process_symbol "AAA" (Except.ok ([] : List RawRow)) =
      ⟨"AAA", none, none, none, none, 0, some "KeyError: date"⟩ :=
  ⟨rfl, rfl⟩

/-- C6 (amended): on an empty raw input sequence `normalize_df` fails
(the date column is missing, as on any input without a date column)
rather than returning an empty series; `process_symbol` catches that
failure and returns a SymbolResult with `n_points = 0`, all numeric
fields null, and `error` set to the cause. -/
theorem empty_input_amended (sym : String) :
    normalize_df ([] : List RawRow) = Except.error "KeyError: date" ∧
    process_symbol sym (Except.ok ([] : List RawRow)) =
      ⟨sym, none, none, none, none, 0, some "KeyError: date"⟩ :=
  ⟨rfl, rfl⟩

/-! ## C1: change_pct semantics -/

/-- C1: on a successfully normalized series with at least one row (and
an existing close column, as a canonical series has), `change_pct` is
null exactly when the first close is `0`, and otherwise equals
`(last close - first close) / first close * 100`; the division is
guarded, so no division by zero occurs and no infinite value arises. -/
theorem change_pct_spec (sym : String) (raw : List RawRow) (nf : NormFrame)
    (hn : normalize_df raw = Except.ok nf) (hne : nf.rows ≠ [])
    (hc : nf.hasClose = true) :
    ((process_symbol sym (Except.ok raw)).change_pct = none ↔ firstClose nf = 0) ∧
    (firstClose nf ≠ 0 →
      (process_symbol sym (Except.ok raw)).change_pct =
        some ((lastClose nf - firstClose nf) / firstClose nf * 100)) := by
  have hb : (Except.ok raw : Except String (List RawRow)).bind normalize_df =
      normalize_df raw := rfl
  have hie : nf.rows.isEmpty = false := by
    cases hr : nf.rows
    · exact absurd hr hne
    · rfl
  unfold process_symbol
  rw [hb, hn]
  simp only [hie, hc, Bool.not_true, Bool.or_false, Bool.false_eq_true, if_false]
  by_cases hz : firstClose nf = 0
  · simp [hz]
  · simp [hz]

/-- C1 witness: `change_pct_spec` at the concrete input `rawW`
(first close 10, last close 12, so `change_pct = 20`). -/
theorem change_pct_spec_witness :
    ((process_symbol "AAA" (Except.ok rawW)).change_pct = none ↔ firstClose nfW = 0) ∧
    (firstClose nfW ≠ 0 →
      (process_symbol "AAA" (Except.ok rawW)).change_pct =
        some ((lastClose nfW - firstClose nfW) / firstClose nfW * 100)) :=
  change_pct_spec "AAA" rawW nfW rfl (by decide) rfl

/-! ## C2: failure is data, not control flow -/

/-- Whenever the record `process_symbol` returns carries an error, all
its numeric fields are null and its `n_points` is `0`. -/
theorem process_symbol_error_nulls (sym : String)
    (fetched : Except String (List RawRow)) :
    (process_symbol sym fetched).error.isSome = true →
      (process_symbol sym fetched).price = none ∧
      (process_symbol sym fetched).change = none ∧
      (process_symbol sym fetched).change_pct = none ∧
      (process_symbol sym fetched).avg_volume = none ∧
      (process_symbol sym fetched).n_points = 0 := by
  cases fetched with
  | error e => exact fun _ => ⟨rfl, rfl, rfl, rfl, rfl⟩
  | ok raw =>
    have hb : (Except.ok raw : Except String (List RawRow)).bind normalize_df =
        normalize_df raw := rfl
    unfold process_symbol
    rw [hb]
    cases hno : normalize_df raw with
    | error e => exact fun _ => ⟨rfl, rfl, rfl, rfl, rfl⟩
    | ok df =>
      by_cases hif : (df.rows.isEmpty || !df.hasClose) = true
      · simp [hif]
      · simp [hif]

/-- C2: `process_symbol` is a total function into SymbolResult — no
exception escapes it.  A failure at either upstream point is converted
into the error record: when the fetch raises, and equally when the
fetch succeeds but `normalize_df` raises, the returned record carries
that cause in `error`, has all numeric fields null and `n_points = 0`;
conversely, whenever `error` is set the record is null-valued with
`n_points = 0`. -/
theorem process_symbol_failure_semantics (sym : String)
    (fetched : Except String (List RawRow)) :
    (∀ e, fetched = Except.error e →
      process_symbol sym fetched = ⟨sym, none, none, none, none, 0, some e⟩) ∧
    (∀ raw e, fetched = Except.ok raw → normalize_df raw = Except.error e →
      process_symbol sym fetched = ⟨sym, none, none, none, none, 0, some e⟩) ∧
    ((process_symbol sym fetched).error.isSome = true →
      (process_symbol sym fetched).price = none ∧
      (process_symbol sym fetched).change = none ∧
      (process_symbol sym fetched).change_pct = none ∧
      (process_symbol sym fetched).avg_volume = none ∧
      (process_symbol sym fetched).n_points = 0) := by
  refine ⟨?_, ?_, process_symbol_error_nulls sym fetched⟩
  · intro e he
    subst he
    rfl
  · intro raw e hok hno
    subst hok
    have hb : (Except.ok raw : Except String (List RawRow)).bind normalize_df =
        normalize_df raw := rfl
    unfold process_symbol
    rw [hb, hno]

/-- C2 witness: a failed fetch for symbol BBB, and a successful fetch
whose payload makes `normalize_df` fail (the empty payload); both
produce the null record with the cause in `error`. -/
theorem process_symbol_failure_semantics_witness :
    process_symbol "BBB" (Except.error "timeout") =
      ⟨"BBB", none, none, none, none, 0, some "timeout"⟩ ∧
    process_symbol "BBB" (Except.ok ([] : List RawRow)) =
      ⟨"BBB", none, none, none, none, 0, some "KeyError: date"⟩ :=
  ⟨(process_symbol_failure_semantics "BBB" (Except.error "timeout")).1 "timeout" rfl,
   (process_symbol_failure_semantics "BBB" (Except.ok ([] : List RawRow))).2.1
     [] "KeyError: date" rfl rfl⟩

/-! ## C3: the SymbolResult invariant -/

/-- C3: every record `process_symbol` returns satisfies the invariant:
if `error` is set then all numeric fields are null and `n_points = 0`;
and `n_points ≥ 1` holds if and only if `price` is non-null. -/
theorem symbolResult_invariant (sym : String)
    (fetched : Except String (List RawRow)) :
    ((process_symbol sym fetched).error.isSome = true →
      (process_symbol sym fetched).price = none ∧
      (process_symbol sym fetched).change = none ∧
      (process_symbol sym fetched).change_pct = none ∧
      (process_symbol sym fetched).avg_volume = none ∧
      (process_symbol sym fetched).n_points = 0) ∧
    (1 ≤ (process_symbol sym fetched).n_points ↔
      (process_symbol sym fetched).price.isSome = true) := by
  refine ⟨process_symbol_error_nulls sym fetched, ?_⟩
  cases fetched with
  | error e => simp [process_symbol, Except.bind]
  | ok raw =>
    have hb : (Except.ok raw : Except String (List RawRow)).bind normalize_df =
        normalize_df raw := rfl
    unfold process_symbol
    rw [hb]
    cases hno : normalize_df raw with
    | error e => simp
    | ok df =>
      by_cases hif : (df.rows.isEmpty || !df.hasClose) = true
      · simp [hif]
      · have hne : df.rows ≠ [] := by
          intro hnil
          simp [hnil] at hif
        simp [hif, Nat.one_le_iff_ne_zero, List.length_eq_zero, hne]

/-- C3 witness: the invariant at a successful concrete input and at a
failed one. -/
theorem symbolResult_invariant_witness :
    (1 ≤ (process_symbol "AAA" (Except.ok rawW)).n_points ↔
      (process_symbol "AAA" (Except.ok rawW)).price.isSome = true) ∧
    ((process_symbol "CCC" (Except.error "boom")).price = none ∧
      (process_symbol "CCC" (Except.error "boom")).change = none ∧
      (process_symbol "CCC" (Except.error "boom")).change_pct = none ∧
      (process_symbol "CCC" (Except.error "boom")).avg_volume = none ∧
      (process_symbol "CCC" (Except.error "boom")).n_points = 0) :=
  ⟨(symbolResult_invariant "AAA" (Except.ok rawW)).2,
   (symbolResult_invariant "CCC" (Except.error "boom")).1 rfl⟩

/-! ## Concrete results used by the aggregation claims -/

/-- A surviving result whose `avg_volume` is exactly `0`: non-null, but
falsy in Python. -/
def r0 : SymbolResult := ⟨"A", some 12, some 2, some 20, some 0, 5, none⟩

/-- The flat entry `r0` yields under an empty sector map mapping and an
empty market-cap map would have a null market cap; under the sector map
`smEmptySector` below its sector field is the empty string. -/
def rScenario2 : SymbolResult := ⟨"B", some 12, some 2, some 20, some 1000, 5, none⟩

/-- The flat entry produced from `rScenario2` with no maps. -/
def eS2 : FlatEntry :=
  ⟨"B", "B", "Unknown", some 12, some 2, some 20, some (1000 * 12), some 1000, 5⟩

/-- A result that is skipped by the `change_pct` filter. -/
def rSkip : SymbolResult := ⟨"C", none, none, none, none, 0, some "timeout"⟩

/-! ## C4: market-cap resolution fallback -/

/-- C4 counterexample.  The claim says the fallback estimate
`avg_volume * price` applies whenever both fields are non-null; but the
source guards it with Python truthiness, so for `r0` — whose
`avg_volume` is the non-null `0` and whose `price` is `12` — the
resolved market cap is null instead of `0 * 12 = 0`. -/
theorem mc_fallback_cex :
    r0.avg_volume = some 0 ∧ r0.price = some 12 ∧ r0.change_pct ≠ none ∧
    (buildFlat [] [] [r0]).map FlatEntry.market_cap_basic = [none] := by
  refine ⟨rfl, rfl, by decide, ?_⟩
  rfl

/-- C4 (amended): for every surviving result, the market cap is the
market-cap map's value when the symbol maps to a non-null value there;
otherwise it is `avg_volume * price` when both are non-null **and
non-zero**; otherwise it is null (in particular when either field is
null or exactly zero). -/
theorem mc_fallback_amended (sm : List (String × SectorInfo))
    (mm : List (String × Option ℚ)) (it : SymbolResult) (e : FlatEntry)
    (h : toFlat sm mm it = some e) :
    (∀ v, mm.lookup it.symbol = some (some v) → e.market_cap_basic = some v) ∧
    ((mm.lookup it.symbol = none ∨ mm.lookup it.symbol = some none) →
      (∀ av p, it.avg_volume = some av → it.price = some p → av ≠ 0 → p ≠ 0 →
        e.market_cap_basic = some (av * p)) ∧
      ((it.avg_volume = none ∨ it.price = none ∨
        it.avg_volume = some 0 ∨ it.price = some 0) →
        e.market_cap_basic = none)) := by
  have hmc : e.market_cap_basic = resolve_mc mm it := by
    unfold toFlat at h
    split at h
    · cases h
    · cases h
      rfl
  rw [hmc]
  unfold resolve_mc
  constructor
  · intro v hv
    rw [hv]
  · intro hnone
    constructor
    · intro av p hav hp hav0 hp0
      rcases hnone with hn | hn <;> rw [hn] <;> rw [hav, hp] <;>
        simp [hav0, hp0]
    · intro hz
      rcases hnone with hn | hn <;> rw [hn] <;>
        rcases hz with h1 | h1 | h1 | h1 <;>
        cases ha : it.avg_volume <;> cases hp2 : it.price <;>
        simp_all

/-- C4 witness: spec scenario 2 — no market-cap mapping, avg_volume
1000 and price 12 give an estimated market cap of 12000. -/
theorem mc_fallback_amended_witness : eS2.market_cap_basic = some (1000 * 12) :=
  ((mc_fallback_amended [] [] rScenario2 eS2 rfl).2 (Or.inl rfl)).1
    1000 12 rfl rfl (by decide) (by decide)

/-! ## C9: fatal abort on an empty flat list -/

/-- C9: the builder aborts — raising the fatal `SystemExit`, modelled
as `Except.error`, before any file is written — exactly when the
`change_pct`-non-null filter leaves the flat list empty; in particular
it aborts whenever every input result was skipped (e.g. all failed). -/
theorem build_abort_iff (items : List SymbolResult)
    (sm : List (String × SectorInfo)) (mm : List (String × Option ℚ))
    (rng ts : String) :
    (build_tv_json_and_heatmap items sm mm rng ts =
        Except.error "No valid items to plot (no data)" ↔
      buildFlat sm mm items = []) ∧
    ((∀ it ∈ items, it.change_pct = none) →
      build_tv_json_and_heatmap items sm mm rng ts =
        Except.error "No valid items to plot (no data)") := by
  have hempty : buildFlat sm mm items = [] ↔ (buildFlat sm mm items).isEmpty = true := by
    rw [List.isEmpty_iff]
  constructor
  · unfold build_tv_json_and_heatmap
    by_cases hif : (buildFlat sm mm items).isEmpty = true
    · simp [hif, hempty]
    · simp [hif, hempty]
  · intro hall
    have hnil : buildFlat sm mm items = [] := by
      rw [buildFlat, List.filterMap_eq_nil_iff]
      intro it hit
      simp [toFlat, hall it hit]
    unfold build_tv_json_and_heatmap
    rw [hnil]
    rfl

/-- C9 witness: with a single skipped result nothing survives and the
run aborts. -/
theorem build_abort_iff_witness :
    build_tv_json_and_heatmap [rSkip] [] [] "month" "ts" =
      Except.error "No valid items to plot (no data)" :=
  (build_abort_iff [rSkip] [] [] "month" "ts").1.2 rfl

/-! ## Sector totals: lemmas about the aggregation fold -/

/-- The running market-cap total the sector dict holds under key `s`
(`0` when the key is absent, matching the `setdefault` initial value). -/
def totalOf (secs : List SectorAcc) (s : String) : ℚ :=
  match secs.find? (fun a => a.name = s) with
  | some a => a.total
  | none => 0

/-- Sum of the non-null market caps of a list of flat entries. -/
def mcSum (l : List FlatEntry) : ℚ := (l.filterMap FlatEntry.market_cap_basic).sum

theorem mcAdd_eq (t : ℚ) (e : FlatEntry) : mcAdd t e = t + mcAdd 0 e := by
  cases h : e.market_cap_basic <;> simp [mcAdd, h]

theorem mcSum_cons (e : FlatEntry) (l : List FlatEntry) :
    mcSum (e :: l) = mcAdd 0 e + mcSum l := by
  cases h : e.market_cap_basic <;> simp [mcSum, mcAdd, h, List.filterMap_cons]

theorem mcSum_append_one (l : List FlatEntry) (e : FlatEntry) :
    mcSum (l ++ [e]) = mcSum l + mcAdd 0 e := by
  cases h : e.market_cap_basic <;>
    simp [mcSum, mcAdd, h, List.filterMap_append, List.filterMap_cons]

theorem totalOf_cons_pos {a : SectorAcc} {rest : List SectorAcc} {s : String}
    (h : a.name = s) : totalOf (a :: rest) s = a.total := by
  unfold totalOf
  rw [List.find?_cons_of_pos _ (by simp [h])]

theorem totalOf_cons_neg {a : SectorAcc} {rest : List SectorAcc} {s : String}
    (h : ¬a.name = s) : totalOf (a :: rest) s = totalOf rest s := by
  unfold totalOf
  rw [List.find?_cons_of_neg _ (by simp [h])]

theorem totalOf_addToFirst (secs : List SectorAcc) (sec : String) (e : FlatEntry)
    (hmem : secs.any (fun a => a.name = sec) = true) (s : String) :
    totalOf (addToFirst secs sec e) s =
      totalOf secs s + (if sec = s then mcAdd 0 e else 0) := by
  induction secs with
  | nil => simp at hmem
  | cons a rest ih =>
    simp only [addToFirst]
    by_cases ha : a.name = sec
    · rw [if_pos ha]
      by_cases hs : sec = s
      · have has : a.name = s := by rw [ha, hs]
        rw [totalOf_cons_pos (show (⟨a.name, mcAdd a.total e, a.items ++ [e]⟩ :
              SectorAcc).name = s from has),
            totalOf_cons_pos has, if_pos hs]
        exact mcAdd_eq a.total e
      · have han : ¬a.name = s := fun h => hs (by rw [← ha, h])
        rw [totalOf_cons_neg (show ¬(⟨a.name, mcAdd a.total e, a.items ++ [e]⟩ :
              SectorAcc).name = s from han),
            totalOf_cons_neg han, if_neg hs, add_zero]
    · rw [if_neg ha]
      have hmem2 : rest.any (fun x => x.name = sec) = true := by
        simpa [List.any_cons, ha] using hmem
      by_cases hs2 : a.name = s
      · have hns : ¬sec = s := fun h => ha (by rw [hs2, ← h])
        rw [totalOf_cons_pos hs2, totalOf_cons_pos hs2, if_neg hns, add_zero]
      · rw [totalOf_cons_neg hs2, totalOf_cons_neg hs2]
        exact ih hmem2

theorem totalOf_eq_zero {secs : List SectorAcc} {s : String}
    (h : secs.find? (fun a => a.name = s) = none) : totalOf secs s = 0 := by
  unfold totalOf
  rw [h]

theorem totalOf_append_new (secs : List SectorAcc) (b : SectorAcc) (s : String)
    (hnone : secs.find? (fun a => a.name = s) = none) :
    totalOf (secs ++ [b]) s = if b.name = s then b.total else 0 := by
  induction secs with
  | nil =>
    by_cases h : b.name = s
    · rw [List.nil_append, totalOf_cons_pos h, if_pos h]
    · rw [List.nil_append, totalOf_cons_neg h, if_neg h]
      rfl
  | cons a rest ih =>
    have ha : ¬a.name = s := by
      intro h
      rw [List.find?_cons_of_pos _ (by simp [h])] at hnone
      cases hnone
    have hrest : rest.find? (fun a => a.name = s) = none := by
      rwa [List.find?_cons_of_neg _ (by simp [ha])] at hnone
    rw [List.cons_append, totalOf_cons_neg ha, ih hrest]

theorem not_any_find?_none {secs : List SectorAcc} {sec : String}
    (hmem : ¬secs.any (fun a => a.name = sec) = true) :
    secs.find? (fun a => a.name = sec) = none := by
  rw [List.find?_eq_none]
  intro a ha
  simp only [decide_eq_true_eq]
  intro h
  exact hmem (List.any_eq_true.2 ⟨a, ha, by simp [h]⟩)

theorem totalOf_addEntry (secs : List SectorAcc) (e : FlatEntry) (s : String) :
    totalOf (addEntry secs e) s =
      totalOf secs s + (if effSector e = s then mcAdd 0 e else 0) := by
  unfold addEntry
  by_cases hmem : secs.any (fun a => a.name = effSector e) = true
  · rw [if_pos hmem]
    exact totalOf_addToFirst secs _ e hmem s
  · rw [if_neg hmem]
    by_cases hs : effSector e = s
    · have hnone : secs.find? (fun a => a.name = s) = none := by
        rw [← hs]
        exact not_any_find?_none hmem
      rw [totalOf_append_new _ _ _ hnone, totalOf_eq_zero hnone, if_pos hs, zero_add]
    · by_cases hfind : secs.find? (fun a => a.name = s) = none
      · rw [totalOf_append_new _ _ _ hfind, totalOf_eq_zero hfind, if_neg hs, zero_add]
      · -- the key `s` is already present, so the appended bucket is never reached
        rw [if_neg hs, add_zero]
        obtain ⟨a, hfa⟩ := Option.ne_none_iff_exists'.1 hfind
        unfold totalOf
        rw [List.find?_append, hfa]
        rfl

theorem totalOf_foldl (flat : List FlatEntry) (secs : List SectorAcc) (s : String) :
    totalOf (List.foldl addEntry secs flat) s =
      totalOf secs s + mcSum (flat.filter (fun e => effSector e = s)) := by
  induction flat generalizing secs with
  | nil => simp [mcSum]
  | cons e rest ih =>
    rw [List.foldl_cons, ih, totalOf_addEntry]
    by_cases h : effSector e = s
    · rw [if_pos h, List.filter_cons_of_pos (by simp [h]), mcSum_cons]
      ring
    · rw [if_neg h, add_zero, List.filter_cons_of_neg (by simp [h])]

/-! ## C5: aggregation is order-independent -/

/-- C5: permuting the input list of symbol results yields a permuted —
hence, as an unordered set, identical — flat list, and identical
per-sector market-cap totals, for any fixed sector and market-cap maps. -/
theorem aggregation_order_independent (sm : List (String × SectorInfo))
    (mm : List (String × Option ℚ)) (items1 items2 : List SymbolResult)
    (hp : items1.Perm items2) :
    (buildFlat sm mm items1).Perm (buildFlat sm mm items2) ∧
    ∀ s, totalOf (buildSectors (buildFlat sm mm items1)) s =
      totalOf (buildSectors (buildFlat sm mm items2)) s := by
  have hflat : (buildFlat sm mm items1).Perm (buildFlat sm mm items2) :=
    hp.filterMap (toFlat sm mm)
  refine ⟨hflat, fun s => ?_⟩
  rw [buildSectors, buildSectors, totalOf_foldl, totalOf_foldl]
  have hsum : mcSum ((buildFlat sm mm items1).filter (fun e => effSector e = s)) =
      mcSum ((buildFlat sm mm items2).filter (fun e => effSector e = s)) := by
    unfold mcSum
    exact ((hflat.filter _).filterMap FlatEntry.market_cap_basic).sum_eq
  rw [hsum]

/-- C5 witness: swapping a two-element input list leaves the flat list
a permutation of itself and the Unknown-sector total unchanged. -/
theorem aggregation_order_independent_witness :
    (buildFlat [] [] [r0, rScenario2]).Perm (buildFlat [] [] [rScenario2, r0]) ∧
    totalOf (buildSectors (buildFlat [] [] [r0, rScenario2])) "Unknown" =
      totalOf (buildSectors (buildFlat [] [] [rScenario2, r0])) "Unknown" :=
  ⟨(aggregation_order_independent [] [] [r0, rScenario2] [rScenario2, r0]
      (List.Perm.swap rScenario2 r0 [])).1,
   (aggregation_order_independent [] [] [r0, rScenario2] [rScenario2, r0]
      (List.Perm.swap rScenario2 r0 [])).2 "Unknown"⟩

/-! ## Bucket invariants of the sector fold -/

/-- The keys of the sector dict, in insertion order. -/
def keysOf (secs : List SectorAcc) : List String := secs.map SectorAcc.name

/-- All member entries of all buckets, concatenated in dict order. -/
def joinItems (secs : List SectorAcc) : List FlatEntry := secs.flatMap SectorAcc.items

theorem keysOf_addToFirst (secs : List SectorAcc) (sec : String) (e : FlatEntry) :
    keysOf (addToFirst secs sec e) = keysOf secs := by
  induction secs with
  | nil => rfl
  | cons a rest ih =>
    simp only [addToFirst]
    by_cases ha : a.name = sec
    · rw [if_pos ha]
      rfl
    · rw [if_neg ha]
      simp only [keysOf, List.map_cons]
      rw [show (addToFirst rest sec e).map SectorAcc.name = keysOf (addToFirst rest sec e)
            from rfl, ih]
      rfl

theorem inv_total_addToFirst (secs : List SectorAcc) (sec : String) (e : FlatEntry)
    (hinv : ∀ a ∈ secs, a.total = mcSum a.items) :
    ∀ a ∈ addToFirst secs sec e, a.total = mcSum a.items := by
  induction secs with
  | nil => simp [addToFirst]
  | cons b rest ih =>
    intro a ha
    simp only [addToFirst] at ha
    by_cases hb : b.name = sec
    · rw [if_pos hb] at ha
      rcases List.mem_cons.1 ha with h | h
      · subst h
        show mcAdd b.total e = mcSum (b.items ++ [e])
        rw [mcSum_append_one, ← hinv b (List.mem_cons_self b rest), mcAdd_eq]
      · exact hinv a (List.mem_cons_of_mem b h)
    · rw [if_neg hb] at ha
      rcases List.mem_cons.1 ha with h | h
      · subst h
        exact hinv a (List.mem_cons_self a rest)
      · exact ih (fun x hx => hinv x (List.mem_cons_of_mem b hx)) a h

theorem inv_total_addEntry (secs : List SectorAcc) (e : FlatEntry)
    (hinv : ∀ a ∈ secs, a.total = mcSum a.items) :
    ∀ a ∈ addEntry secs e, a.total = mcSum a.items := by
  unfold addEntry
  by_cases hmem : secs.any (fun a => a.name = effSector e) = true
  · rw [if_pos hmem]
    exact inv_total_addToFirst secs _ e hinv
  · rw [if_neg hmem]
    intro a ha
    rcases List.mem_append.1 ha with h | h
    · exact hinv a h
    · rcases List.mem_singleton.1 h with rfl
      show mcAdd 0 e = mcSum [e]
      cases hmc : e.market_cap_basic <;> simp [mcAdd, mcSum, hmc]

theorem inv_total_buildSectors (flat : List FlatEntry) :
    ∀ a ∈ buildSectors flat, a.total = mcSum a.items := by
  have key : ∀ (l : List FlatEntry) (secs : List SectorAcc),
      (∀ a ∈ secs, a.total = mcSum a.items) →
      ∀ a ∈ List.foldl addEntry secs l, a.total = mcSum a.items := by
    intro l
    induction l with
    | nil => exact fun secs h => h
    | cons e rest ih =>
      intro secs h
      rw [List.foldl_cons]
      exact ih _ (inv_total_addEntry secs e h)
  exact key flat [] (by simp)

theorem inv_items_addToFirst (secs : List SectorAcc) (e : FlatEntry)
    (hinv : ∀ a ∈ secs, a.items ≠ [] ∧ ∀ x ∈ a.items, effSector x = a.name) :
    ∀ a ∈ addToFirst secs (effSector e) e,
      a.items ≠ [] ∧ ∀ x ∈ a.items, effSector x = a.name := by
  induction secs with
  | nil => simp [addToFirst]
  | cons b rest ih =>
    intro a ha
    simp only [addToFirst] at ha
    by_cases hb : b.name = effSector e
    · rw [if_pos hb] at ha
      rcases List.mem_cons.1 ha with h | h
      · subst h
        refine ⟨by simp, fun x hx => ?_⟩
        rcases List.mem_append.1 hx with h2 | h2
        · exact (hinv b (List.mem_cons_self b rest)).2 x h2
        · rcases List.mem_singleton.1 h2 with rfl
          exact hb.symm
      · exact hinv a (List.mem_cons_of_mem b h)
    · rw [if_neg hb] at ha
      rcases List.mem_cons.1 ha with h | h
      · subst h
        exact hinv a (List.mem_cons_self a rest)
      · exact ih (fun x hx => hinv x (List.mem_cons_of_mem b hx)) a h

theorem inv_items_addEntry (secs : List SectorAcc) (e : FlatEntry)
    (hinv : ∀ a ∈ secs, a.items ≠ [] ∧ ∀ x ∈ a.items, effSector x = a.name) :
    ∀ a ∈ addEntry secs e, a.items ≠ [] ∧ ∀ x ∈ a.items, effSector x = a.name := by
  unfold addEntry
  by_cases hmem : secs.any (fun a => a.name = effSector e) = true
  · rw [if_pos hmem]
    exact inv_items_addToFirst secs e hinv
  · rw [if_neg hmem]
    intro a ha
    rcases List.mem_append.1 ha with h | h
    · exact hinv a h
    · rcases List.mem_singleton.1 h with rfl
      exact ⟨by simp, fun x hx => by rcases List.mem_singleton.1 hx with rfl; rfl⟩

theorem keysOf_nodup_addEntry (secs : List SectorAcc) (e : FlatEntry)
    (hinv : (keysOf secs).Nodup) : (keysOf (addEntry secs e)).Nodup := by
  unfold addEntry
  by_cases hmem : secs.any (fun a => a.name = effSector e) = true
  · rw [if_pos hmem, keysOf_addToFirst]
    exact hinv
  · rw [if_neg hmem]
    have hnotin : effSector e ∉ keysOf secs := by
      intro hin
      rcases List.mem_map.1 hin with ⟨a, ha, hna⟩
      exact hmem (List.any_eq_true.2 ⟨a, ha, by simp [hna]⟩)
    simp only [keysOf, List.map_append, List.map_cons, List.map_nil]
    rw [List.nodup_append]
    refine ⟨hinv, List.nodup_singleton _, ?_⟩
    intro x hx1 hx2
    rw [List.mem_singleton] at hx2
    subst hx2
    exact hnotin hx1

theorem joinItems_addToFirst (secs : List SectorAcc) (sec : String) (e : FlatEntry)
    (hmem : secs.any (fun a => a.name = sec) = true) :
    (joinItems (addToFirst secs sec e)).Perm (joinItems secs ++ [e]) := by
  induction secs with
  | nil => simp at hmem
  | cons b rest ih =>
    simp only [addToFirst]
    by_cases hb : b.name = sec
    · rw [if_pos hb]
      show ((b.items ++ [e]) ++ joinItems rest).Perm ((b.items ++ joinItems rest) ++ [e])
      rw [List.append_assoc b.items [e], List.append_assoc b.items (joinItems rest)]
      exact List.Perm.append_left b.items List.perm_append_comm
    · rw [if_neg hb]
      have hmem2 : rest.any (fun x => x.name = sec) = true := by
        simpa [List.any_cons, hb] using hmem
      show (b.items ++ joinItems (addToFirst rest sec e)).Perm
        ((b.items ++ joinItems rest) ++ [e])
      rw [List.append_assoc b.items (joinItems rest)]
      exact List.Perm.append_left b.items (ih hmem2)

theorem joinItems_addEntry (secs : List SectorAcc) (e : FlatEntry) :
    (joinItems (addEntry secs e)).Perm (joinItems secs ++ [e]) := by
  unfold addEntry
  by_cases hmem : secs.any (fun a => a.name = effSector e) = true
  · rw [if_pos hmem]
    exact joinItems_addToFirst secs _ e hmem
  · rw [if_neg hmem]
    simp [joinItems, List.flatMap_append]

theorem joinItems_foldl (flat : List FlatEntry) (secs : List SectorAcc) :
    (joinItems (List.foldl addEntry secs flat)).Perm (joinItems secs ++ flat) := by
  induction flat generalizing secs with
  | nil => simp
  | cons e rest ih =>
    rw [List.foldl_cons]
    have h1 := ih (addEntry secs e)
    have h2 := (joinItems_addEntry secs e).append_right rest
    have h3 : (joinItems secs ++ [e]) ++ rest = joinItems secs ++ (e :: rest) := by simp
    exact h1.trans (h3 ▸ h2)

theorem keysOf_nodup_buildSectors (flat : List FlatEntry) :
    (keysOf (buildSectors flat)).Nodup := by
  have key : ∀ (l : List FlatEntry) (secs : List SectorAcc),
      (keysOf secs).Nodup → (keysOf (List.foldl addEntry secs l)).Nodup := by
    intro l
    induction l with
    | nil => exact fun secs h => h
    | cons e rest ih =>
      intro secs h
      rw [List.foldl_cons]
      exact ih _ (keysOf_nodup_addEntry secs e h)
  exact key flat [] (by simp [keysOf])

theorem inv_items_buildSectors (flat : List FlatEntry) :
    ∀ a ∈ buildSectors flat, a.items ≠ [] ∧ ∀ x ∈ a.items, effSector x = a.name := by
  have key : ∀ (l : List FlatEntry) (secs : List SectorAcc),
      (∀ a ∈ secs, a.items ≠ [] ∧ ∀ x ∈ a.items, effSector x = a.name) →
      ∀ a ∈ List.foldl addEntry secs l,
        a.items ≠ [] ∧ ∀ x ∈ a.items, effSector x = a.name := by
    intro l
    induction l with
    | nil => exact fun secs h => h
    | cons e rest ih =>
      intro secs h
      rw [List.foldl_cons]
      exact ih _ (inv_items_addEntry secs e h)
  exact key flat [] (by simp)

theorem joinItems_buildSectors (flat : List FlatEntry) :
    (joinItems (buildSectors flat)).Perm flat := by
  have h := joinItems_foldl flat []
  simpa [joinItems] using h

/-- A surviving result mapped to a negative market cap by the map. -/
def rNeg : SymbolResult := ⟨"A", some 1, some 1, some 1, none, 1, none⟩

/-- A market-cap map carrying a negative (parseable) value. -/
def mmNeg : List (String × Option ℚ) := [("A", some (-5))]

/-- The flat entry `rNeg` yields under `mmNeg`. -/
def eNeg : FlatEntry := ⟨"A", "A", "Unknown", some 1, some 1, some 1, some (-5), none, 1⟩

/-- A sector map sending symbol A to the empty-string sector. -/
def smEmptySector : List (String × SectorInfo) := [("A", ⟨"", "NameA"⟩)]

/-- The flat entry `r0` yields under `smEmptySector`: its sector field
is the empty string. -/
def eEmptySec : FlatEntry := ⟨"A", "NameA", "", some 12, some 2, some 20, none, some 0, 5⟩

/-! ## C8: sector aggregate market cap -/

/-- C8 counterexample.  The claim says the aggregate is null exactly
when the running total is zero and otherwise equals the members' sum;
but the source tests `total > 0`, so a sector whose one member
contributes the non-null cap `-5` — total `-5`, nonzero — is still
reported as null instead of `-5`. -/
theorem sector_cap_cex :
    buildFlat [] mmNeg [rNeg] = [eNeg] ∧
    mcSum [eNeg] = -5 ∧
    (sectorsList (buildSectors [eNeg])).map SectorOut.sector_market_cap = [none] := by
  refine ⟨rfl, ?_, ?_⟩
  · simp [mcSum, eNeg]
  · have hsec : buildSectors [eNeg] = [⟨"Unknown", 0 + -5, [eNeg]⟩] := rfl
    rw [hsec]
    simp only [sectorsList, List.map_cons, List.map_nil]
    norm_num

/-- C8 (amended): a sector's aggregate market cap is reported as null
whenever the running total — the sum of its members' non-null market
caps — is not positive (in particular whenever no member contributed a
non-null cap), and equals that sum whenever the sum is positive. -/
theorem sector_cap_amended (flat : List FlatEntry) (sec : SectorOut)
    (h : sec ∈ sectorsList (buildSectors flat)) :
    (0 < mcSum sec.items → sec.sector_market_cap = some (mcSum sec.items)) ∧
    (mcSum sec.items ≤ 0 → sec.sector_market_cap = none) := by
  rcases List.mem_map.1 h with ⟨a, ha, rfl⟩
  have ht := inv_total_buildSectors flat a ha
  constructor
  · intro hpos
    show (if 0 < a.total then some a.total else none) = some (mcSum a.items)
    rw [ht, if_pos hpos]
  · intro hle
    show (if 0 < a.total then some a.total else none) = none
    rw [ht, if_neg (not_lt.2 hle)]

/-- C8 witness: a one-entry sector whose member has a null market cap
keeps the total at zero and reports a null aggregate. -/
theorem sector_cap_amended_witness :
    (⟨"Unknown", none, [eEmptySec]⟩ : SectorOut).sector_market_cap = none :=
  (sector_cap_amended [eEmptySec] ⟨"Unknown", none, [eEmptySec]⟩
    (by decide)).2 (by decide)

/-! ## C10: the sectors partition the flat list -/

theorem sectorsList_names (secs : List SectorAcc) :
    (sectorsList secs).map SectorOut.name = keysOf secs := by
  induction secs with
  | nil => rfl
  | cons a rest ih =>
    simp only [sectorsList, keysOf, List.map_cons] at ih ⊢
    rw [ih]

theorem sectorsList_flatMap (secs : List SectorAcc) :
    (sectorsList secs).flatMap SectorOut.items = joinItems secs := by
  induction secs with
  | nil => rfl
  | cons a rest ih =>
    simp only [sectorsList, joinItems, List.map_cons, List.flatMap_cons] at ih ⊢
    rw [ih]

/-- C10 counterexample.  The claim says each flat entry appears in the
items of the sector matching its sector field; but an entry whose
sector field is the empty string is bucketed under `"Unknown"`
(`e["sector"] or "Unknown"` is Python truthiness), and no sector named
`""` exists. -/
theorem treemap_partition_cex :
    buildFlat smEmptySector [] [r0] = [eEmptySec] ∧
    eEmptySec.sector = "" ∧
    sectorsList (buildSectors [eEmptySec]) = [⟨"Unknown", none, [eEmptySec]⟩] := by
  refine ⟨rfl, rfl, ?_⟩
  decide

/-- C10 (amended): in every produced document, sector names are
pairwise distinct; every listed sector has at least one item, and each
of its items has that sector as its effective sector (its sector field,
with the empty string mapped to `"Unknown"`); and the concatenation of
all sectors' items is a permutation of — i.e. equal as a multiset to —
the flat list.  Hence each flat entry appears in the items of exactly
one sector: the one named by its effective sector. -/
theorem treemap_partition (flat : List FlatEntry) :
    ((sectorsList (buildSectors flat)).map SectorOut.name).Nodup ∧
    (∀ sec ∈ sectorsList (buildSectors flat),
      sec.items ≠ [] ∧ ∀ e ∈ sec.items, effSector e = sec.name) ∧
    ((sectorsList (buildSectors flat)).flatMap SectorOut.items).Perm flat := by
  refine ⟨?_, ?_, ?_⟩
  · rw [sectorsList_names]
    exact keysOf_nodup_buildSectors flat
  · intro sec hsec
    rcases List.mem_map.1 hsec with ⟨a, ha, rfl⟩
    exact inv_items_buildSectors flat a ha
  · rw [sectorsList_flatMap]
    exact joinItems_buildSectors flat

/-- C10 witness: the partition facts at a one-entry flat list. -/
theorem treemap_partition_witness :
    (((sectorsList (buildSectors [eEmptySec])).map SectorOut.name).Nodup) ∧
    ((sectorsList (buildSectors [eEmptySec])).flatMap SectorOut.items).Perm [eEmptySec] :=
  ⟨(treemap_partition [eEmptySec]).1, (treemap_partition [eEmptySec]).2.2⟩

end FinanceVisualize
